import Mathlib

/-!
Verification of the transcript-chat retrieval and ingestion pipeline.

The definitions below are shallow embeddings of the JavaScript source:
strings are modelled as Lean `String` / `List Char`, JS numbers used for
scores as `ℚ` (and as `ℝ` where a square root occurs), MongoDB
`find(query).limit(n)` as `List.filter` followed by `List.take` over the
stored collection, and promise rejection as `Except.error`.
-/

/-! ## Text pattern matching (the JS regexes of the chat route)

The route classifies queries and scans stored chunk text with literal
regexes.  They are embedded below as explicit scanners over `List Char`.
JS `\w` is `[A-Za-z0-9_]`, `\b` demands a word/non-word transition, and
the `i` flag is modelled by comparing lowercased characters. -/

def isWordChar (c : Char) : Bool := c.isAlphanum || c == '_'

/-- `\b` immediately before a word character: the previous character (if
any) is not a word character. -/
def boundaryBefore (prev : Option Char) : Bool :=
  match prev with
  | none => true
  | some c => !isWordChar c

/-- `\b` immediately after a word character: the remaining input is empty
or starts with a non-word character. -/
def boundaryAfter (l : List Char) : Bool :=
  match l with
  | [] => true
  | c :: _ => !isWordChar c

/-- Case-insensitive literal match of `pat` at the head of `l`; returns
the remaining input on success. -/
def matchLitCI : List Char → List Char → Option (List Char)
  | [], rest => some rest
  | _ :: _, [] => none
  | p :: ps, c :: cs => if p.toLower == c.toLower then matchLitCI ps cs else none

/-- One alternative word of an alternation `\b(w1|w2|...)\b`: literal
case-insensitive match followed by a trailing word boundary. -/
def matchWordAt (w : List Char) (l : List Char) : Bool :=
  match matchLitCI w l with
  | some rest => boundaryAfter rest
  | none => false

/-- After the digit run of `\d+`, the trailing `\b` holds iff the first
non-digit character that follows is absent or not a word character
(backtracking inside the digit run cannot help, since a digit is itself a
word character). -/
def afterDigitsOk : List Char → Bool
  | [] => true
  | c :: rest => if c.isDigit then afterDigitsOk rest else !isWordChar c

/-- `\d+\b` at the head of `l`: at least one digit, then a boundary. -/
def digitsThenBoundary : List Char → Bool
  | [] => false
  | c :: rest => c.isDigit && afterDigitsOk rest

/-- The task-identifier body `(?:sp|SP)[-\s]?\d+\b` matched at the head of
`l` (case-insensitively). -/
def matchSpAt (l : List Char) : Bool :=
  match l with
  | s :: p :: rest =>
    if s.toLower == 's' && p.toLower == 'p' then
      (match rest with
       | c :: rest2 => (c == '-' || c.isWhitespace) && digitsThenBoundary rest2
       | [] => false)
      || digitsThenBoundary rest
    else false
  | _ => false

/-- Scan every position of the input, carrying the previous character so
`\b` before the match can be tested; `p prev l` decides whether some
alternative matches at the head of `l`. -/
def scanPositions (p : Option Char → List Char → Bool) : Option Char → List Char → Bool
  | _, [] => false
  | prev, c :: rest => p prev (c :: rest) || scanPositions p (some c) rest

/-- The synonym vocabulary of the query classifier
`/\b(task|tasks|sp[-\s]?\d+|ticket|tickets|item|items|work|todo|assignment)\b/i`. -/
def taskSynonyms : List (List Char) :=
  [['t','a','s','k'], ['t','a','s','k','s'], ['t','i','c','k','e','t'],
   ['t','i','c','k','e','t','s'], ['i','t','e','m'], ['i','t','e','m','s'],
   ['w','o','r','k'], ['t','o','d','o'],
   ['a','s','s','i','g','n','m','e','n','t']]

/-- `isTaskQuery`: the query matches the task/ticket synonym vocabulary or
a literal `SP-123`-style identifier (the same regex is used in the
`/message` route and in `searchKeywordContent`). -/
def isTaskQuery (s : String) : Bool :=
  scanPositions
    (fun prev l => boundaryBefore prev &&
      (taskSynonyms.any (fun w => matchWordAt w l) || matchSpAt l))
    none s.toList

/-- The standalone identifier test `/\b(?:sp|SP)[-\s]?\d+\b/i` used on
stored chunk text. -/
def containsSpPattern (s : String) : Bool :=
  scanPositions (fun prev l => boundaryBefore prev && matchSpAt l) none s.toList

/-- The keyword list of the second task-related search query
`/\b(task|ticket|item|assignment|todo|work|status|progress|update|complete|done|pending)\b/i`. -/
def taskRelatedKeywords : List (List Char) :=
  [['t','a','s','k'], ['t','i','c','k','e','t'], ['i','t','e','m'],
   ['a','s','s','i','g','n','m','e','n','t'], ['t','o','d','o'],
   ['w','o','r','k'], ['s','t','a','t','u','s'],
   ['p','r','o','g','r','e','s','s'], ['u','p','d','a','t','e'],
   ['c','o','m','p','l','e','t','e'], ['d','o','n','e'],
   ['p','e','n','d','i','n','g']]

/-- Word-bounded case-insensitive test for any word of `ws`. -/
def containsAnyWordCI (ws : List (List Char)) (s : String) : Bool :=
  scanPositions
    (fun prev l => boundaryBefore prev && ws.any (fun w => matchWordAt w l))
    none s.toList

/-- Unanchored case-insensitive substring test for any literal of `pats`
(the regexes built by joining matched literals / query terms with `|`
carry no `\b`; regex metacharacters inside the joined tokens are
modelled as literals). -/
def icontainsAnyLit (pats : List (List Char)) (s : String) : Bool :=
  scanPositions (fun _ l => pats.any (fun w => (matchLitCI w l).isSome)) none s.toList

/-- JS `.` of the `.*` in the meeting-specific alternatives: any character
except a line terminator. -/
def isDotChar (c : Char) : Bool :=
  c.val != 10 && c.val != 13 && c.val != 0x2028 && c.val != 0x2029

/-- `.*w2\b` somewhere in the remainder: either `w2` (with its trailing
boundary) matches here, or the current character is consumed by `.*`. -/
def dotStarThen (w2 : List Char) : List Char → Bool
  | [] => false
  | c :: rest =>
    (match matchLitCI w2 (c :: rest) with
     | some r => boundaryAfter r
     | none => false)
    || (isDotChar c && dotStarThen w2 rest)

def meetingPlainAlts : List (List Char) :=
  [['e','a','c','h',' ','m','e','e','t','i','n','g'],
   ['e','a','c','h',' ','t','r','a','n','s','c','r','i','p','t'],
   ['s','e','p','a','r','a','t','e'],
   ['i','n','d','i','v','i','d','u','a','l'],
   ['p','e','r',' ','m','e','e','t','i','n','g']]

def meetingDotAlts : List (List Char × List Char) :=
  [(['m','e','e','t','i','n','g'], ['s','e','p','a','r','a','t','e']),
   (['s','u','m','m','a','r','y'], ['e','a','c','h']),
   (['e','a','c','h'], ['s','u','m','m','a','r','y'])]

/-- `isMeetingSpecificQuery`: the cross-document classifier
`/\b(each meeting|each transcript|separate|individual|per meeting|meeting.*separate|summary.*each|each.*summary)\b/i`. -/
def isMeetingSpecificQuery (s : String) : Bool :=
  scanPositions
    (fun prev l => boundaryBefore prev &&
      (meetingPlainAlts.any (fun w => matchWordAt w l) ||
       meetingDotAlts.any (fun pr =>
         match matchLitCI pr.1 l with
         | some r => dotStarThen pr.2 r
         | none => false)))
    none s.toList

/-- Number of leading digits. -/
def countDigits : List Char → Nat
  | [] => 0
  | c :: rest => if c.isDigit then countDigits rest + 1 else 0

/-- Length of a `(?:sp|SP)[-\s]?\d+\b` match starting at the head of `l`,
if any (the digit run is greedy; a separator is consumed only when digits
follow it, mirroring regex backtracking). -/
def spMatchLen (l : List Char) : Option Nat :=
  match l with
  | s :: p :: rest =>
    if s.toLower == 's' && p.toLower == 'p' then
      match rest with
      | c :: rest2 =>
        if (c == '-' || c.isWhitespace) && digitsThenBoundary rest2 then
          some (3 + countDigits rest2)
        else if digitsThenBoundary rest then
          some (2 + countDigits rest)
        else none
      | [] => none
    else none
  | _ => none

/-- `query.match(/\b(?:sp|SP)[-\s]?\d+\b/g)`: all (non-overlapping,
left-to-right) matched substrings.  The fuel argument bounds the scan by
the input length; each step consumes at least one character. -/
def spMatchesAux : Nat → Option Char → List Char → List (List Char)
  | 0, _, _ => []
  | _ + 1, _, [] => []
  | fuel + 1, prev, c :: rest =>
    match (if boundaryBefore prev then spMatchLen (c :: rest) else none) with
    | some n =>
      (c :: rest).take n ::
        spMatchesAux fuel (((c :: rest).take n).getLastD c) ((c :: rest).drop n)
    | none => spMatchesAux fuel (some c) rest

def spMatchesOf (s : String) : List (List Char) :=
  spMatchesAux (s.toList.length + 1) none s.toList

/-- `query.toLowerCase().split(' ').filter(term => term.length > 2)`. -/
def splitOnSpaceChars : List Char → List (List Char)
  | [] => [[]]
  | c :: rest =>
    match splitOnSpaceChars rest with
    | [] => [[]]
    | w :: ws => if c == ' ' then [] :: w :: ws else (c :: w) :: ws

def searchTerms (q : String) : List (List Char) :=
  (splitOnSpaceChars (q.toList.map Char.toLower)).filter (fun t => 2 < t.length)

/-! ## Chunker (`chunkText` of the embeddings route)

`chunkText(text, maxTokens = 4000)` splits on single spaces, accumulates
words into a current chunk, and starts a new chunk when the accumulated
string would exceed `maxTokens * 4` characters.  Strings are embedded as
`List Char`; `text.split(' ')` is `splitOnSpaceChars`. -/

/-- The body of `for (const word of words)`.  The accumulator is
`(chunks, currentChunk)`; `testChunk = currentChunk + (currentChunk ? ' ' : '') + word`. -/
def chunkStep (maxTokens : Nat) (acc : List (List Char) × List Char)
    (word : List Char) : List (List Char) × List Char :=
  let chunks := acc.1
  let currentChunk := acc.2
  let testChunk := if currentChunk = [] then word else currentChunk ++ ' ' :: word
  if maxTokens * 4 < testChunk.length then
    if currentChunk = [] then
      -- Single word is too long: `chunks.push(word.substring(0, maxTokens * 4))`,
      -- `currentChunk` is left unchanged (still empty).
      (chunks ++ [word.take (maxTokens * 4)], currentChunk)
    else
      (chunks ++ [currentChunk], word)
  else
    (chunks, testChunk)

/-- The loop over the word list plus the final
`if (currentChunk) chunks.push(currentChunk)`. -/
def chunkTextWords (maxTokens : Nat) (words : List (List Char)) : List (List Char) :=
  let r := words.foldl (chunkStep maxTokens) ([], [])
  if r.2 = [] then r.1 else r.1 ++ [r.2]

def chunkText (text : List Char) (maxTokens : Nat) : List (List Char) :=
  chunkTextWords maxTokens (splitOnSpaceChars text)

/-! ## Vectorizer averaging (`generateEmbedding`, multi-chunk path)

For oversized text the route embeds each chunk and averages: it builds a
zero vector of `embeddings[0].length` dimensions, adds every embedding
component-wise, then divides each component by `embeddings.length`.
Embedding components are modelled as `ℚ`. -/

def averageEmbeddings (embeddings : List (List ℚ)) : List ℚ :=
  let dimensions := (embeddings.headD []).length
  let zeroVec := List.replicate dimensions (0 : ℚ)
  let sums := embeddings.foldl
    (fun acc e => (List.range dimensions).map (fun i => acc.getD i 0 + e.getD i 0))
    zeroVec
  sums.map (fun x => x / (embeddings.length : ℚ))

/-! ## Cosine similarity (`cosineSimilarity` of the chat route)

`dotProduct / (magnitudeA * magnitudeB)` with no guard on the
denominator.  Components are modelled as `ℝ` because of `Math.sqrt`.
If either magnitude is `0` the JS division is `0/0 = NaN` (a zero
magnitude forces every component, hence the dot product, to be `0`);
`NaN` is modelled as `Option.none`, so the unguarded division is
`jsDiv`, which is `none` exactly when the denominator is `0`. -/

def dotProduct (vecA vecB : List ℝ) : ℝ :=
  (List.zipWith (fun a b => a * b) vecA vecB).sum

noncomputable def magnitude (v : List ℝ) : ℝ :=
  Real.sqrt ((v.map (fun a => a * a)).sum)

noncomputable def jsDiv (x y : ℝ) : Option ℝ :=
  if y = 0 then none else some (x / y)

noncomputable def cosineSimilarity (vecA vecB : List ℝ) : Option ℝ :=
  jsDiv (dotProduct vecA vecB) (magnitude vecA * magnitude vecB)

/-! ## Search data model

`SearchHit` is the ephemeral result record each strategy produces
(`transcriptId`, `meetingId`, `date`, `content`, `contentPreview`,
`chunkIndex`, `similarity`).  `StoredDoc` is a row of the
`transcript_embeddings` collection (LangChain flattens the metadata
fields); `RetrievedDoc` is a document returned by the vector-store
retriever.  Mongo ids are modelled as `Nat`. -/

structure SearchHit where
  transcriptId : String
  meetingId : String
  date : String
  content : String
  contentPreview : String
  chunkIndex : Nat
  similarity : ℚ
deriving DecidableEq, Repr

structure StoredDoc where
  mongoId : Nat
  transcriptId : String
  meetingId : String
  date : String
  text : String
  chunkIndex : Nat
deriving DecidableEq, Repr

structure RetrievedDoc where
  pageContent : String
  transcriptId : String
  meetingId : String
  date : String
  chunkIndex : Nat
deriving DecidableEq, Repr

/-- The fixed score `0.95` of identifier-scanner hits, as a normalized
rational so that witnesses evaluate inside the kernel;
`simTask_eq_ratio` below checks it is `95 / 100`. -/
def simTask : ℚ := ⟨19, 20, by norm_num, by norm_num⟩

/-- The fixed score `0.9` of keyword hits (`simKeyword_eq_ratio`: `9 / 10`). -/
def simKeyword : ℚ := ⟨9, 10, by norm_num, by norm_num⟩

/-- The placeholder score `0.8` of vector hits (`simVector_eq_ratio`: `8 / 10`). -/
def simVector : ℚ := ⟨4, 5, by norm_num, by norm_num⟩

/-- `text.substring(0, 500) + (text.length > 500 ? '...' : '')` (computed
on the character sequence). -/
def contentPreviewOf (s : String) : String :=
  String.mk (s.toList.take 500) ++ (if 500 < s.toList.length then "..." else "")

/-- `collection.find(query).limit(n)`: the stored documents satisfying
the query predicate, in collection order, capped at `n` (the Mongo
backend is an external collaborator; this is its interface contract). -/
def mongoFind (coll : List StoredDoc) (query : StoredDoc → Bool) (lim : Nat) :
    List StoredDoc :=
  (coll.filter query).take lim

/-- `l.filter((r, index, self) => index === self.findIndex(x => key x === key r))`:
keep an element iff its index is the first index holding its key. -/
def dedupByKey {α β : Type} [DecidableEq β] (key : α → β) (l : List α) : List α :=
  (l.enum.filter
    (fun p => l.findIdx (fun r => decide (key r = key p.2)) = p.1)).map Prod.snd

/-! ## The three retrieval strategies -/

/-- `searchAllTaskReferences(transcriptIds)`: identifier scan of the
embeddings collection, `limit(20)`, fixed similarity `0.95`. -/
def searchAllTaskReferences (coll : List StoredDoc) (transcriptIds : List String) :
    List SearchHit :=
  (mongoFind coll
      (fun d => transcriptIds.contains d.transcriptId && containsSpPattern d.text)
      20).map
    (fun d =>
      { transcriptId := d.transcriptId, meetingId := d.meetingId, date := d.date
        content := d.text, contentPreview := contentPreviewOf d.text
        chunkIndex := d.chunkIndex, similarity := simTask })

/-- The `searchQueries` list built by `searchKeywordContent`: every query
constrains `transcriptId` to the requested set and tests `text` with a
regex. -/
def keywordSearchQueries (query : String) (transcriptIds : List String) :
    List (StoredDoc → Bool) :=
  (if isTaskQuery query then
    [fun d => transcriptIds.contains d.transcriptId && containsSpPattern d.text,
     fun d => transcriptIds.contains d.transcriptId &&
       containsAnyWordCI taskRelatedKeywords d.text]
   else []) ++
  (if spMatchesOf query ≠ [] then
    [fun d => transcriptIds.contains d.transcriptId &&
      icontainsAnyLit (spMatchesOf query) d.text]
   else []) ++
  (if searchTerms query ≠ [] then
    [fun d => transcriptIds.contains d.transcriptId &&
      icontainsAnyLit (searchTerms query) d.text]
   else [])

/-- `searchKeywordContent(query, transcriptIds)`: run every search query
with `limit(10)`, concatenate, dedupe by Mongo `_id`, keep the first 15,
fixed similarity `0.9`. -/
def searchKeywordContent (coll : List StoredDoc) (query : String)
    (transcriptIds : List String) : List SearchHit :=
  let queries := keywordSearchQueries query transcriptIds
  if queries.isEmpty then []
  else
    let allResults := queries.flatMap (fun q => mongoFind coll q 10)
    let uniqueDocs := dedupByKey (fun d => d.mongoId) allResults
    (uniqueDocs.take 15).map
      (fun d =>
        { transcriptId := d.transcriptId, meetingId := d.meetingId, date := d.date
          content := d.text, contentPreview := contentPreviewOf d.text
          chunkIndex := d.chunkIndex, similarity := simKeyword })

/-- `searchSimilarContent(query, transcriptIds, maxResults)`: the
retriever's documents (an external vector backend response) are filtered
to the allowed transcript ids, truncated to `maxResults`, and formatted
with placeholder similarity `0.8`. -/
def searchSimilarContent (docs : List RetrievedDoc) (transcriptIds : List String)
    (maxResults : Nat) : List SearchHit :=
  ((docs.filter (fun d => transcriptIds.contains d.transcriptId)).take maxResults).map
    (fun d =>
      { transcriptId := d.transcriptId, meetingId := d.meetingId, date := d.date
        content := d.pageContent, contentPreview := contentPreviewOf d.pageContent
        chunkIndex := d.chunkIndex, similarity := simVector })

/-! ## Fusion (the `/message` route, lines 963-1003)

`combinedResults` concatenates the strategies in priority order,
`uniqueResults` dedupes by exact `content` equality, and the final list
is `slice(0, maxFinalResults)` with `maxFinalResults = 25` for
meeting-specific (cross-document) queries and `15` otherwise. -/

def combinedResults (message : String)
    (vectorResults keywordResults taskResults : List SearchHit) : List SearchHit :=
  if isTaskQuery message then taskResults ++ keywordResults ++ vectorResults
  else keywordResults ++ vectorResults

def maxFinalResults (message : String) : Nat :=
  if isMeetingSpecificQuery message then 25 else 15

def fuseResults (message : String)
    (vectorResults keywordResults taskResults : List SearchHit) : List SearchHit :=
  (dedupByKey (fun r => r.content)
      (combinedResults message vectorResults keywordResults taskResults)).take
    (maxFinalResults message)

/-! ## Failure semantics of the `/message` retrieval

`searchKeywordContent` and `searchAllTaskReferences` wrap their body in
`try/catch` and return `[]` on error; `searchSimilarContent` catches and
**rethrows**.  The route awaits `Promise.all` over the launched
strategies, so the combined promise rejects iff the vector strategy
rejects.  Backend outcomes are modelled as `Except String`. -/

def searchSimilarContentR (backend : Except String (List RetrievedDoc))
    (transcriptIds : List String) (maxResults : Nat) :
    Except String (List SearchHit) :=
  match backend with
  | Except.error e => Except.error e          -- catch (error) { throw error; }
  | Except.ok docs => Except.ok (searchSimilarContent docs transcriptIds maxResults)

def searchKeywordContentR (db : Except String (List StoredDoc)) (query : String)
    (transcriptIds : List String) : List SearchHit :=
  match db with
  | Except.error _ => []                      -- catch (error) { return []; }
  | Except.ok coll => searchKeywordContent coll query transcriptIds

def searchAllTaskReferencesR (db : Except String (List StoredDoc))
    (transcriptIds : List String) : List SearchHit :=
  match db with
  | Except.error _ => []                      -- catch (error) { return []; }
  | Except.ok coll => searchAllTaskReferences coll transcriptIds

/-- The retrieval phase of `router.post('/message')`: launch the vector
search (with `k = 10` for meeting-specific queries, else `5`), the
keyword search, and — for task queries — the identifier search; await all
of them; fuse.  A rejection can only come from the vector strategy. -/
def retrieveSimilarContent (message : String) (transcriptIds : List String)
    (vecBackend : Except String (List RetrievedDoc))
    (keywordDb taskDb : Except String (List StoredDoc)) :
    Except String (List SearchHit) :=
  let vectorResultsCount := if isMeetingSpecificQuery message then 10 else 5
  match searchSimilarContentR vecBackend transcriptIds vectorResultsCount with
  | Except.error e => Except.error e
  | Except.ok vectorResults =>
    let keywordResults := searchKeywordContentR keywordDb message transcriptIds
    let taskResults :=
      if isTaskQuery message then searchAllTaskReferencesR taskDb transcriptIds
      else []
    Except.ok (fuseResults message vectorResults keywordResults taskResults)

/-! ## Context formatter (`TranscriptRAG.formatContext`)

Hits are grouped by `item.date` into an insertion-ordered map (date keys
here are ISO-like strings, which JS objects keep in insertion order);
each entry carries its 1-based source index and the similarity rendered
as a percentage with one decimal.  The groups' write-only `transcripts`
set is omitted: the source never reads it.  The empty and missing inputs
return the fixed sentinel. -/

def noContentSentinel : String :=
  "No relevant transcript content found for this query."

/-- `(item.similarity * 100).toFixed(1)`, for the non-negative rational
scores of this pipeline (rounding half away from zero). -/
def toFixed1 (q : ℚ) : String :=
  let scaled : Int := ⌊q * 10 + 1 / 2⌋
  toString (scaled / 10) ++ "." ++ toString (scaled % 10)

structure ContextEntry where
  sourceNum : Nat
  content : String
  similarity : String
  transcriptId : String
deriving DecidableEq, Repr

def mkContextEntry (index : Nat) (h : SearchHit) : ContextEntry :=
  { sourceNum := index + 1, content := h.content
    similarity := toFixed1 (h.similarity * 100), transcriptId := h.transcriptId }

/-- Insert an entry into the group of `key`, appending a new group at the
end when the key is absent. -/
def addToGroup (acc : List (String × List ContextEntry)) (key : String)
    (e : ContextEntry) : List (String × List ContextEntry) :=
  match acc with
  | [] => [(key, [e])]
  | (k, es) :: rest =>
    if k = key then (k, es ++ [e]) :: rest else (k, es) :: addToGroup rest key e

def groupByDate (hits : List SearchHit) : List (String × List ContextEntry) :=
  hits.enum.foldl (fun acc p => addToGroup acc p.2.date (mkContextEntry p.1 p.2)) []

def renderEntry (e : ContextEntry) : String :=
  "[Source " ++ toString e.sourceNum ++ "] (Similarity: " ++ e.similarity ++ "%)\n"
    ++ e.content

def renderSection (p : String × List ContextEntry) : String :=
  "=== MEETING ON " ++ p.1 ++ " ===\n" ++
    String.intercalate "\n\n" (p.2.map renderEntry)

def sectionSeparator : String :=
  "\n\n" ++ String.mk (List.replicate 60 '=') ++ "\n\n"

/-- `formatContext(similarContent)`; the argument is an `Option` because
the JS guard `!similarContent || similarContent.length === 0` also
accepts a missing list. -/
def formatContext (similarContent : Option (List SearchHit)) : String :=
  match similarContent with
  | none => noContentSentinel
  | some [] => noContentSentinel
  | some hits =>
    String.intercalate sectionSeparator ((groupByDate hits).map renderSection)

/-- The spec's phrase "first-seen date order": fold the date list left to
right, appending a date only when it has not been seen. -/
def firstSeenOrder (dates : List String) : List String :=
  dates.foldl (fun ks d => if d ∈ ks then ks else ks ++ [d]) []

/-! ## Ingestion lock (the `/generate` route)

`generationLocks` is a module-level `Set` of transcript ids.  The loop
body for one id is synchronous from the `generationLocks.has` check up to
either the `continue` of the skip path (whose `finally` **deletes the
lock**) or the `generationLocks.add` before the first `await`; the
closing `finally` delete is the other synchronous segment.  Each segment
is one atomic action of the transition system below; concurrent
`/generate` calls interleave these actions on the shared lock set. -/

inductive GenPhase where
  | idle
  | running
  | doneSkipped
  | doneGenerated
deriving DecidableEq, Repr

structure GenState where
  locks : List String
  phases : List GenPhase
deriving DecidableEq, Repr

inductive GenAction where
  /-- The synchronous prefix of one loop iteration of call `i` for `id`:
  check `generationLocks.has(id)`; if held, record the skip result and
  `continue` — running the `finally`, which deletes the lock; otherwise
  `generationLocks.add(id)` and start ingesting. -/
  | begin (i : Nat) (id : String)
  /-- The end of call `i`'s ingestion of `id`: the `finally` deletes the
  lock. -/
  | finish (i : Nat) (id : String)
deriving DecidableEq, Repr

def applyGenAction (s : GenState) (a : GenAction) : GenState :=
  match a with
  | GenAction.begin i id =>
    if s.phases.getD i GenPhase.idle = GenPhase.idle then
      if s.locks.contains id then
        { locks := s.locks.erase id,           -- skip path: `finally` still runs
          phases := s.phases.set i GenPhase.doneSkipped }
      else
        { locks := id :: s.locks,              -- generationLocks.add(transcriptId)
          phases := s.phases.set i GenPhase.running }
    else s
  | GenAction.finish i id =>
    if s.phases.getD i GenPhase.idle = GenPhase.running then
      { locks := s.locks.erase id,             -- finally: generationLocks.delete
        phases := s.phases.set i GenPhase.doneGenerated }
    else s

def applyGenActions (s : GenState) (as : List GenAction) : GenState :=
  as.foldl applyGenAction s

/-! ## Concrete sample data used by witnesses and counterexamples -/

/-- A stored chunk of transcript `t1` mentioning the task `SP-42`. -/
def demoDoc : StoredDoc :=
  { mongoId := 1, transcriptId := "t1", meetingId := "m1", date := "2025-09-15"
    text := "SP-42 done", chunkIndex := 0 }

/-- The keyword hit `searchKeywordContent` produces from `demoDoc`. -/
def demoKeywordHit : SearchHit :=
  { transcriptId := "t1", meetingId := "m1", date := "2025-09-15"
    content := "SP-42 done", contentPreview := "SP-42 done"
    chunkIndex := 0, similarity := simKeyword }

/-- A keyword hit with content `alpha`. -/
def hitAlphaKeyword : SearchHit :=
  { transcriptId := "t1", meetingId := "m1", date := "2025-09-15"
    content := "alpha", contentPreview := "alpha", chunkIndex := 0
    similarity := simKeyword }

/-- A vector hit from another document carrying the same text `alpha`. -/
def hitAlphaVector : SearchHit :=
  { transcriptId := "t2", meetingId := "m2", date := "2025-09-16"
    content := "alpha", contentPreview := "alpha", chunkIndex := 1
    similarity := simVector }

/-- A vector hit with content `beta`. -/
def hitBetaVector : SearchHit :=
  { transcriptId := "t2", meetingId := "m2", date := "2025-09-16"
    content := "beta", contentPreview := "beta", chunkIndex := 2
    similarity := simVector }

/-! ## Helper lemmas about first-occurrence deduplication -/

theorem pairwise_fst_lt_enumFrom {α : Type} (n : Nat) (l : List α) :
    (l.enumFrom n).Pairwise (fun a b => a.1 < b.1) := by
  induction l generalizing n with
  | nil => simp
  | cons a t ih =>
    rw [List.enumFrom_cons]
    refine List.Pairwise.cons ?_ (ih (n + 1))
    intro b hb
    have := (List.mk_mem_enumFrom_iff_le_and_getElem?_sub (x := b.2)).1 (by simpa using hb)
    omega

theorem dedupByKey_sublist {α β : Type} [DecidableEq β] (key : α → β) (l : List α) :
    (dedupByKey key l).Sublist l := by
  have h1 : (l.enum.filter
      (fun p => l.findIdx (fun r => decide (key r = key p.2)) = p.1)).Sublist l.enum :=
    List.filter_sublist _
  have h2 := h1.map Prod.snd
  rwa [show l.enum.map Prod.snd = l from List.enumFrom_map_snd 0 l] at h2

theorem dedupByKey_pairwise {α β : Type} [DecidableEq β] (key : α → β) (l : List α) :
    (dedupByKey key l).Pairwise (fun a b => key a ≠ key b) := by
  unfold dedupByKey
  rw [List.pairwise_map]
  have hlt : (l.enum.filter
      (fun p => l.findIdx (fun r => decide (key r = key p.2)) = p.1)).Pairwise
      (fun a b => a.1 < b.1) :=
    (pairwise_fst_lt_enumFrom 0 l).filter _
  refine hlt.imp_of_mem ?_
  intro a b ha hb hab
  have ha' := (List.mem_filter.1 ha).2
  have hb' := (List.mem_filter.1 hb).2
  simp only [decide_eq_true_eq] at ha' hb'
  intro hk
  have : (fun r => decide (key r = key a.2)) = (fun r => decide (key r = key b.2)) := by
    funext r
    simp [hk]
  rw [this] at ha'
  omega

/-- Every element the deduplication keeps sits at the first index of the
input that carries its key. -/
theorem dedupByKey_first_seen {α β : Type} [DecidableEq β] (key : α → β) (l : List α)
    (h : α) (hmem : h ∈ dedupByKey key l) :
    ∃ i, l.get? i = some h ∧
      ∀ j, j < i → ∀ y, l.get? j = some y → key y ≠ key h := by
  unfold dedupByKey at hmem
  obtain ⟨p, hp, hsnd⟩ := List.mem_map.1 hmem
  obtain ⟨henum, hpred⟩ := List.mem_filter.1 hp
  simp only [decide_eq_true_eq] at hpred
  have hget : l[p.1]? = some p.2 := List.mem_enum_iff_getElem?.1 henum
  refine ⟨p.1, ?_, ?_⟩
  · rw [List.get?_eq_getElem?, hget, hsnd]
  · intro j hj y hy
    rw [← hpred] at hj
    have hfalse := List.not_of_lt_findIdx hj
    have hylt : j < l.length := (List.get?_eq_some.1 hy).1
    intro hkey
    have hsome : l[j]? = some y := by
      rw [← List.get?_eq_getElem?]
      exact hy
    have hjl : l[j] = y := by
      have h2 := List.getElem?_eq_getElem hylt
      rw [h2] at hsome
      exact Option.some.inj hsome
    rw [hjl] at hfalse
    simp only [decide_eq_false_iff_not] at hfalse
    rw [hsnd] at hfalse
    exact hfalse hkey

/-- Every query `searchKeywordContent` sends to the collection constrains
the owning transcript id to the requested set. -/
theorem keywordSearchQueries_constrain (query : String) (transcriptIds : List String)
    (q : StoredDoc → Bool) (hq : q ∈ keywordSearchQueries query transcriptIds)
    (d : StoredDoc) (hd : q d = true) :
    transcriptIds.contains d.transcriptId = true := by
  unfold keywordSearchQueries at hq
  rcases List.mem_append.1 hq with hqab | hqc
  · rcases List.mem_append.1 hqab with hqa | hqb
    · split at hqa
      · rcases List.mem_cons.1 hqa with rfl | hqa2
        · simp only [Bool.and_eq_true] at hd
          exact hd.1
        · rcases List.mem_cons.1 hqa2 with rfl | hqa3
          · simp only [Bool.and_eq_true] at hd
            exact hd.1
          · exact absurd hqa3 (List.not_mem_nil _)
      · exact absurd hqa (List.not_mem_nil _)
    · split at hqb
      · rcases List.mem_cons.1 hqb with rfl | hqb2
        · simp only [Bool.and_eq_true] at hd
          exact hd.1
        · exact absurd hqb2 (List.not_mem_nil _)
      · exact absurd hqb (List.not_mem_nil _)
  · split at hqc
    · rcases List.mem_cons.1 hqc with rfl | hqc2
      · simp only [Bool.and_eq_true] at hd
        exact hd.1
      · exact absurd hqc2 (List.not_mem_nil _)
    · exact absurd hqc (List.not_mem_nil _)

/-- Sanity check: the normalized constant is the source's `0.95`. -/
theorem simTask_eq_ratio : simTask = 95 / 100 := by
  rw [simTask, Rat.mk'_eq_divInt, Rat.divInt_eq_div]
  norm_num

/-- Sanity check: the normalized constant is the source's `0.9`. -/
theorem simKeyword_eq_ratio : simKeyword = 9 / 10 := by
  rw [simKeyword, Rat.mk'_eq_divInt, Rat.divInt_eq_div]
  norm_num

/-- Sanity check: the normalized constant is the source's `0.8`. -/
theorem simVector_eq_ratio : simVector = 8 / 10 := by
  rw [simVector, Rat.mk'_eq_divInt, Rat.divInt_eq_div]
  norm_num

/-! ## Helper lemmas about the chunker -/

theorem chunkStep_eq (m : Nat) (acc : List (List Char) × List Char)
    (w : List Char) :
    chunkStep m acc w =
      if m * 4 < (if acc.2 = [] then w else acc.2 ++ ' ' :: w).length then
        (if acc.2 = [] then (acc.1 ++ [w.take (m * 4)], acc.2)
         else (acc.1 ++ [acc.2], w))
      else (acc.1, if acc.2 = [] then w else acc.2 ++ ' ' :: w) := rfl

/-- Invariant of the word loop: every emitted chunk is within the budget
or is one of the input words, and so is the pending chunk when non-empty. -/
theorem chunk_fold_invariant (m : Nat) (ws : List (List Char)) :
    ∀ (sub : List (List Char)), (∀ w ∈ sub, w ∈ ws) →
    ∀ acc : List (List Char) × List Char,
      (∀ c ∈ acc.1, c.length ≤ m * 4 ∨ c ∈ ws) →
      (acc.2 = [] ∨ acc.2.length ≤ m * 4 ∨ acc.2 ∈ ws) →
      (∀ c ∈ (sub.foldl (chunkStep m) acc).1, c.length ≤ m * 4 ∨ c ∈ ws) ∧
      ((sub.foldl (chunkStep m) acc).2 = [] ∨
        (sub.foldl (chunkStep m) acc).2.length ≤ m * 4 ∨
        (sub.foldl (chunkStep m) acc).2 ∈ ws) := by
  intro sub
  induction sub with
  | nil => intro _ acc h1 h2; exact ⟨h1, h2⟩
  | cons w t ih =>
    intro hsub acc h1 h2
    rw [List.foldl_cons]
    have hw : w ∈ ws := hsub w (List.mem_cons_self w t)
    have hnext :
        (∀ c ∈ (chunkStep m acc w).1, c.length ≤ m * 4 ∨ c ∈ ws) ∧
        ((chunkStep m acc w).2 = [] ∨
          (chunkStep m acc w).2.length ≤ m * 4 ∨ (chunkStep m acc w).2 ∈ ws) := by
      rw [chunkStep_eq]
      by_cases hcc : acc.2 = []
      · simp only [hcc, ite_true, reduceIte]
        by_cases hlen : m * 4 < w.length
        · rw [if_pos hlen]
          refine ⟨?_, Or.inl rfl⟩
          intro c hc
          rcases List.mem_append.1 hc with h | h
          · exact h1 c h
          · left
            rw [List.mem_singleton.1 h, List.length_take]
            exact Nat.min_le_left _ _
        · rw [if_neg hlen]
          exact ⟨h1, Or.inr (Or.inl (Nat.le_of_not_lt hlen))⟩
      · simp only [hcc, ite_false, if_neg]
        by_cases hlen : m * 4 < (acc.2 ++ ' ' :: w).length
        · rw [if_pos hlen]
          refine ⟨?_, Or.inr (Or.inr hw)⟩
          intro c hc
          rcases List.mem_append.1 hc with h | h
          · exact h1 c h
          · rw [List.mem_singleton.1 h]
            rcases h2 with h2 | h2
            · exact absurd h2 hcc
            · exact h2
        · rw [if_neg hlen]
          exact ⟨h1, Or.inr (Or.inl (Nat.le_of_not_lt hlen))⟩
    exact ih (fun x hx => hsub x (List.mem_cons_of_mem w hx)) (chunkStep m acc w)
      hnext.1 hnext.2

/-- With a positive budget, every chunk the loop emits is non-empty. -/
theorem chunk_fold_nonempty (m : Nat) (hm : 1 ≤ m) :
    ∀ (sub : List (List Char)) (acc : List (List Char) × List Char),
      (∀ c ∈ acc.1, c ≠ []) →
      (∀ c ∈ (sub.foldl (chunkStep m) acc).1, c ≠ []) := by
  intro sub
  induction sub with
  | nil => intro acc h1; exact h1
  | cons w t ih =>
    intro acc h1
    rw [List.foldl_cons]
    refine ih (chunkStep m acc w) ?_
    intro c hc
    rw [chunkStep_eq] at hc
    by_cases hcc : acc.2 = []
    · simp only [hcc, ite_true, reduceIte] at hc
      by_cases hlen : m * 4 < w.length
      · rw [if_pos hlen] at hc
        rcases List.mem_append.1 hc with h | h
        · exact h1 c h
        · rw [List.mem_singleton.1 h]
          have : (w.take (m * 4)).length = m * 4 := by
            rw [List.length_take]
            omega
          intro hnil
          rw [hnil] at this
          simp at this
          omega
      · rw [if_neg hlen] at hc
        exact h1 c hc
    · simp only [hcc, ite_false, if_neg] at hc
      by_cases hlen : m * 4 < (acc.2 ++ ' ' :: w).length
      · rw [if_pos hlen] at hc
        rcases List.mem_append.1 hc with h | h
        · exact h1 c h
        · rw [List.mem_singleton.1 h]
          exact hcc
      · rw [if_neg hlen] at hc
        exact h1 c hc

theorem splitOnSpaceChars_all_empty (text : List Char)
    (h : ∀ ch ∈ text, ch = ' ') :
    ∀ w ∈ splitOnSpaceChars text, w = [] := by
  induction text with
  | nil =>
    intro w hw
    rcases List.mem_singleton.1 hw with rfl
    rfl
  | cons c rest ih =>
    intro w hw
    unfold splitOnSpaceChars at hw
    have hc : c = ' ' := h c (List.mem_cons_self _ _)
    have hrest := ih (fun x hx => h x (List.mem_cons_of_mem _ hx))
    rcases hsplit : splitOnSpaceChars rest with _ | ⟨w0, ws⟩
    · rw [hsplit] at hw
      rcases List.mem_singleton.1 hw with rfl
      rfl
    · rw [hsplit] at hw
      simp only [hc, beq_self_eq_true, ite_true] at hw
      rcases List.mem_cons.1 hw with rfl | hw2
      · rfl
      · exact hrest w (hsplit ▸ hw2)

theorem chunk_fold_empty_words (m : Nat) :
    ∀ (ws : List (List Char)) (chunks : List (List Char)),
      (∀ w ∈ ws, w = []) →
      ws.foldl (chunkStep m) (chunks, []) = (chunks, []) := by
  intro ws
  induction ws with
  | nil => intro chunks _; rfl
  | cons w t ih =>
    intro chunks h
    rw [List.foldl_cons]
    have hw : w = [] := h w (List.mem_cons_self _ _)
    have hstep : chunkStep m (chunks, []) w = (chunks, []) := by
      rw [chunkStep_eq]
      simp [hw]
    rw [hstep]
    exact ih chunks (fun x hx => h x (List.mem_cons_of_mem _ hx))

/-! ## Helper lemmas about embedding averaging -/

theorem getD_map_range (f : Nat → ℚ) (dims i : Nat) (hi : i < dims) :
    ((List.range dims).map f).getD i 0 = f i := by
  rw [List.getD_eq_getElem?_getD, List.getElem?_map, List.getElem?_range hi]
  rfl

theorem getD_map_of_lt (f : ℚ → ℚ) (l : List ℚ) (i : Nat) (hi : i < l.length) :
    (l.map f).getD i 0 = f (l.getD i 0) := by
  rw [List.getD_eq_getElem?_getD, List.getElem?_map, List.getElem?_eq_getElem hi]
  rw [List.getD_eq_getElem?_getD, List.getElem?_eq_getElem hi]
  rfl

theorem avg_fold_length (dims : Nat) :
    ∀ (embs : List (List ℚ)) (init : List ℚ), init.length = dims →
      (embs.foldl
        (fun acc e => (List.range dims).map (fun j => acc.getD j 0 + e.getD j 0))
        init).length = dims := by
  intro embs
  induction embs with
  | nil => intro init h; exact h
  | cons e t ih =>
    intro init h
    rw [List.foldl_cons]
    exact ih _ (by rw [List.length_map, List.length_range])

/-- The accumulation loop of `generateEmbedding` computes, in component
`i`, the sum of the `i`-th components of all embeddings. -/
theorem avg_fold_getD (dims i : Nat) (hi : i < dims) :
    ∀ (embs : List (List ℚ)) (init : List ℚ), init.length = dims →
      (embs.foldl
        (fun acc e => (List.range dims).map (fun j => acc.getD j 0 + e.getD j 0))
        init).getD i 0
        = init.getD i 0 + (embs.map (fun e => e.getD i 0)).sum := by
  intro embs
  induction embs with
  | nil =>
    intro init _
    simp
  | cons e t ih =>
    intro init h
    rw [List.foldl_cons]
    rw [ih _ (by rw [List.length_map, List.length_range])]
    rw [getD_map_range _ dims i hi]
    rw [List.map_cons, List.sum_cons]
    ring

/-! ## Helper lemmas about date grouping -/

theorem addToGroup_keys (acc : List (String × List ContextEntry)) (k : String)
    (e : ContextEntry) :
    (addToGroup acc k e).map Prod.fst =
      if k ∈ acc.map Prod.fst then acc.map Prod.fst
      else acc.map Prod.fst ++ [k] := by
  induction acc with
  | nil => simp [addToGroup]
  | cons p rest ih =>
    rcases p with ⟨k0, es⟩
    unfold addToGroup
    by_cases hk : k0 = k
    · subst hk
      simp
    · rw [if_neg hk]
      by_cases hmem : k ∈ rest.map Prod.fst
      · simp only [List.map_cons, ih, hmem, ite_true]
        rw [if_pos]
        exact List.mem_cons_of_mem _ hmem
      · simp only [List.map_cons, ih, hmem, ite_false]
        rw [if_neg]
        · simp
        · intro hcon
          rcases List.mem_cons.1 hcon with h | h
          · exact hk h.symm
          · exact hmem h

theorem addToGroup_sizes (acc : List (String × List ContextEntry)) (k : String)
    (e : ContextEntry) :
    ((addToGroup acc k e).map (fun p => p.2.length)).sum
      = ((acc.map (fun p => p.2.length)).sum) + 1 := by
  induction acc with
  | nil => simp [addToGroup]
  | cons p rest ih =>
    rcases p with ⟨k0, es⟩
    unfold addToGroup
    by_cases hk : k0 = k
    · subst hk
      simp only [ite_true, reduceIte, List.map_cons, List.sum_cons,
        List.length_append, List.length_singleton]
      omega
    · rw [if_neg hk]
      simp only [List.map_cons, List.sum_cons, ih]
      omega

theorem groupFold_keys :
    ∀ (ps : List (Nat × SearchHit)) (acc : List (String × List ContextEntry)),
      ((ps.foldl (fun acc p => addToGroup acc p.2.date (mkContextEntry p.1 p.2)) acc).map
        Prod.fst)
        = (ps.map (fun p => p.2.date)).foldl
            (fun ks d => if d ∈ ks then ks else ks ++ [d]) (acc.map Prod.fst) := by
  intro ps
  induction ps with
  | nil => intro acc; rfl
  | cons p t ih =>
    intro acc
    rw [List.foldl_cons, List.map_cons, List.foldl_cons, ih, addToGroup_keys]

theorem groupFold_sizes :
    ∀ (ps : List (Nat × SearchHit)) (acc : List (String × List ContextEntry)),
      ((ps.foldl (fun acc p => addToGroup acc p.2.date (mkContextEntry p.1 p.2)) acc).map
        (fun p => p.2.length)).sum
        = ((acc.map (fun p => p.2.length)).sum) + ps.length := by
  intro ps
  induction ps with
  | nil => intro acc; simp
  | cons p t ih =>
    intro acc
    rw [List.foldl_cons, ih, addToGroup_sizes, List.length_cons]
    omega

theorem foldl_insert_nodup :
    ∀ (dates : List String) (acc : List String), acc.Nodup →
      (dates.foldl (fun ks d => if d ∈ ks then ks else ks ++ [d]) acc).Nodup := by
  intro dates
  induction dates with
  | nil => intro acc h; exact h
  | cons d t ih =>
    intro acc h
    rw [List.foldl_cons]
    refine ih _ ?_
    by_cases hd : d ∈ acc
    · rw [if_pos hd]; exact h
    · rw [if_neg hd]
      simp [List.nodup_append, h, hd]

/-! ## Claim theorems -/

/-- C1: for every query and strategy outputs, the fused retrieval result
is the priority-ordered concatenation — identifier hits, then keyword
hits, then vector hits when the query is identifier-related, otherwise
keyword hits then vector hits — deduplicated and only then truncated to
`maxFinalResults`, which is `25` for cross-document (meeting-specific)
queries and `15` otherwise; the output is a sublist of the priority
concatenation (so strategy priority survives fusion) and its length is
bounded by the budget. -/
theorem fusion_priority_order_and_truncation (message : String)
    (vectorResults keywordResults taskResults : List SearchHit) :
    fuseResults message vectorResults keywordResults taskResults =
      (dedupByKey (fun r => r.content)
        (combinedResults message vectorResults keywordResults taskResults)).take
        (maxFinalResults message) ∧
    combinedResults message vectorResults keywordResults taskResults =
      (if isTaskQuery message then taskResults ++ keywordResults ++ vectorResults
       else keywordResults ++ vectorResults) ∧
    maxFinalResults message = (if isMeetingSpecificQuery message then 25 else 15) ∧
    (fuseResults message vectorResults keywordResults taskResults).Sublist
      (combinedResults message vectorResults keywordResults taskResults) ∧
    (fuseResults message vectorResults keywordResults taskResults).length ≤
      maxFinalResults message := by
  refine ⟨rfl, rfl, rfl, ?_, ?_⟩
  · exact (List.take_sublist _ _).trans (dedupByKey_sublist _ _)
  · exact List.length_take_le _ _

/-- C2: no two entries of a fused result set carry identical chunk text,
and every entry kept is the first-seen occurrence of its text in the
priority-ordered combined list (so it comes from the highest-priority
strategy producing that text). -/
theorem fusion_dedup_by_exact_text (message : String)
    (vectorResults keywordResults taskResults : List SearchHit) :
    (fuseResults message vectorResults keywordResults taskResults).Pairwise
      (fun a b => a.content ≠ b.content) ∧
    ∀ h ∈ fuseResults message vectorResults keywordResults taskResults,
      ∃ i, (combinedResults message vectorResults keywordResults taskResults).get? i
          = some h ∧
        ∀ j, j < i →
          ∀ y, (combinedResults message vectorResults keywordResults taskResults).get? j
              = some y → y.content ≠ h.content := by
  constructor
  · exact List.Pairwise.sublist (List.take_sublist _ _) (dedupByKey_pairwise _ _)
  · intro h hm
    exact dedupByKey_first_seen _ _ h (List.mem_of_mem_take hm)

/-- Witness for C2 at a concrete fusion: the keyword copy of the
duplicated text `alpha` is kept and is the first occurrence in the
combined list. -/
theorem fusion_dedup_by_exact_text_witness :
    hitAlphaKeyword ∈
      fuseResults "hello" [hitAlphaVector, hitBetaVector] [hitAlphaKeyword] [] ∧
    ∃ i, (combinedResults "hello" [hitAlphaVector, hitBetaVector]
          [hitAlphaKeyword] []).get? i = some hitAlphaKeyword ∧
      ∀ j, j < i →
        ∀ y, (combinedResults "hello" [hitAlphaVector, hitBetaVector]
            [hitAlphaKeyword] []).get? j = some y →
          y.content ≠ hitAlphaKeyword.content := by
  have hm : hitAlphaKeyword ∈
      fuseResults "hello" [hitAlphaVector, hitBetaVector] [hitAlphaKeyword] [] := by
    rw [show fuseResults "hello" [hitAlphaVector, hitBetaVector] [hitAlphaKeyword] []
        = [hitAlphaKeyword, hitBetaVector] from rfl]
    exact List.mem_cons_self _ _
  exact ⟨hm,
    (fusion_dedup_by_exact_text "hello" [hitAlphaVector, hitBetaVector]
      [hitAlphaKeyword] []).2 hitAlphaKeyword hm⟩

/-- C3: every hit returned by any of the three strategies — vector
similarity, keyword scan, identifier scan — owns a transcript id from the
requested `transcriptIds` set. -/
theorem retrieval_filter_invariant (docs : List RetrievedDoc)
    (coll : List StoredDoc) (query : String) (transcriptIds : List String)
    (maxResults : Nat) (h : SearchHit) :
    (h ∈ searchSimilarContent docs transcriptIds maxResults →
      h.transcriptId ∈ transcriptIds) ∧
    (h ∈ searchKeywordContent coll query transcriptIds →
      h.transcriptId ∈ transcriptIds) ∧
    (h ∈ searchAllTaskReferences coll transcriptIds →
      h.transcriptId ∈ transcriptIds) := by
  refine ⟨?_, ?_, ?_⟩
  · intro hm
    obtain ⟨d, hd, rfl⟩ := List.mem_map.1 hm
    have hd2 := List.mem_of_mem_take hd
    have := (List.mem_filter.1 hd2).2
    simpa using this
  · intro hm
    simp only [searchKeywordContent] at hm
    split at hm
    · simp at hm
    · obtain ⟨d, hd, rfl⟩ := List.mem_map.1 hm
      have hd2 := List.mem_of_mem_take hd
      have hd3 := (dedupByKey_sublist (fun d : StoredDoc => d.mongoId) _).subset hd2
      obtain ⟨q, hq, hdq⟩ := List.mem_flatMap.1 hd3
      have hd4 := List.mem_of_mem_take hdq
      have hd5 := (List.mem_filter.1 hd4).2
      have := keywordSearchQueries_constrain query transcriptIds q hq d hd5
      simpa using this
  · intro hm
    obtain ⟨d, hd, rfl⟩ := List.mem_map.1 hm
    have hd2 := List.mem_of_mem_take hd
    have hd3 := (List.mem_filter.1 hd2).2
    simp only [Bool.and_eq_true] at hd3
    simpa using hd3.1

/-- Witness for C3: a concrete keyword search over a one-document
collection returns a hit whose transcript id is in the allowed set. -/
theorem retrieval_filter_invariant_witness :
    demoKeywordHit ∈ searchKeywordContent [demoDoc] "tasks" ["t1"] ∧
    demoKeywordHit.transcriptId ∈ ["t1"] := by
  have hm : demoKeywordHit ∈ searchKeywordContent [demoDoc] "tasks" ["t1"] := by
    rw [show searchKeywordContent [demoDoc] "tasks" ["t1"] = [demoKeywordHit] by
      set_option maxRecDepth 4000 in decide]
    exact List.mem_cons_self _ _
  exact ⟨hm,
    (retrieval_filter_invariant [] [demoDoc] "tasks" ["t1"] 5 demoKeywordHit).2.1 hm⟩

/-- Counterexample for C4: with the vector backend failing and the other
strategies succeeding (the keyword strategy even returns a hit), the
retrieval as a whole rejects with the vector error instead of degrading —
`searchSimilarContent` rethrows inside its catch, and the route awaits
`Promise.all`. -/
theorem vector_failure_counterexample :
    retrieveSimilarContent "tasks" ["t1"] (Except.error "vector index unavailable")
      (Except.ok [demoDoc]) (Except.ok [demoDoc])
      = Except.error "vector index unavailable" ∧
    searchKeywordContentR (Except.ok [demoDoc]) "tasks" ["t1"] = [demoKeywordHit] := by
  constructor
  · rfl
  · show searchKeywordContent [demoDoc] "tasks" ["t1"] = [demoKeywordHit]
    set_option maxRecDepth 4000 in decide

/-- C4 (amended): failures of the keyword and identifier strategies are
degraded to empty result sets and retrieval still succeeds, but any
failure of the vector-search strategy rejects the whole retrieval — the
retrieval succeeds exactly when the vector strategy does. -/
theorem strategy_failure_semantics (message : String) (transcriptIds : List String)
    (docs : List RetrievedDoc) (e e1 e2 : String)
    (keywordDb taskDb : Except String (List StoredDoc)) :
    retrieveSimilarContent message transcriptIds (Except.error e) keywordDb taskDb
      = Except.error e ∧
    retrieveSimilarContent message transcriptIds (Except.ok docs)
      (Except.error e1) (Except.error e2)
      = Except.ok (fuseResults message
          (searchSimilarContent docs transcriptIds
            (if isMeetingSpecificQuery message then 10 else 5)) [] []) := by
  constructor
  · rfl
  · simp [retrieveSimilarContent, searchSimilarContentR, searchKeywordContentR,
      searchAllTaskReferencesR, ite_self]

/-- C5 evidence: the `finally` delete also runs on the in-progress skip
path, so a lock held by a running call is erased by a skipping call.
Three interleaved `/generate` calls for the same transcript id reach a
state in which calls 0 and 2 ingest the id concurrently (both `running`),
while call 1 skipped — the lock set no longer protects call 0. -/
theorem ingestion_lock_overlap_reachable :
    (applyGenActions
      { locks := [], phases := [GenPhase.idle, GenPhase.idle, GenPhase.idle] }
      [GenAction.begin 0 "t1", GenAction.begin 1 "t1", GenAction.begin 2 "t1"]).phases
      = [GenPhase.running, GenPhase.doneSkipped, GenPhase.running] ∧
    (applyGenActions
      { locks := [], phases := [GenPhase.idle, GenPhase.idle, GenPhase.idle] }
      [GenAction.begin 0 "t1", GenAction.begin 1 "t1", GenAction.begin 2 "t1"]).locks
      = ["t1"] := by decide

/-- Counterexample for C6: with budget `maxTokens = 1` (16 characters
would behave the same with larger budgets), chunking `"a bbbbb"` emits
the oversized word `bbbbb` untruncated — its length 5 exceeds
`maxTokens * 4 = 4` — because the oversized word arrived while a chunk
was pending. -/
theorem chunk_length_bound_counterexample :
    chunkText ("a bbbbb".toList) 1 = [['a'], ['b', 'b', 'b', 'b', 'b']] ∧
    ¬ (∀ c ∈ chunkText ("a bbbbb".toList) 1, c.length ≤ 1 * 4) := by decide

/-- C6 (amended): every fragment the chunker returns either satisfies the
`maxTokens * 4` character budget or is one of the input's space-separated
words, emitted whole; hard truncation happens only when an oversized word
arrives while the current chunk is empty. -/
theorem chunk_fragment_bound_or_whole_word (maxTokens : Nat) (text : List Char)
    (c : List Char) (hc : c ∈ chunkText text maxTokens) :
    c.length ≤ maxTokens * 4 ∨ c ∈ splitOnSpaceChars text := by
  unfold chunkText chunkTextWords at hc
  have h := chunk_fold_invariant maxTokens (splitOnSpaceChars text)
    (splitOnSpaceChars text) (fun _ hx => hx) ([], [])
    (by intro c hc; exact absurd hc (List.not_mem_nil _)) (Or.inl rfl)
  set r := (splitOnSpaceChars text).foldl (chunkStep maxTokens) ([], []) with hr
  by_cases hcc : r.2 = []
  · rw [if_pos hcc] at hc
    exact h.1 c hc
  · rw [if_neg hcc] at hc
    rcases List.mem_append.1 hc with h2 | h2
    · exact h.1 c h2
    · rw [List.mem_singleton.1 h2]
      rcases h.2 with h3 | h3
      · exact absurd h3 hcc
      · exact h3

/-- Witness for C6 (amended) at the counterexample input: the oversized
fragment is a whole word of the input. -/
theorem chunk_fragment_bound_or_whole_word_witness :
    (['b', 'b', 'b', 'b', 'b'] ∈ chunkText ("a bbbbb".toList) 1) ∧
    ((['b', 'b', 'b', 'b', 'b'] : List Char).length ≤ 1 * 4 ∨
      ['b', 'b', 'b', 'b', 'b'] ∈ splitOnSpaceChars ("a bbbbb".toList)) :=
  ⟨by decide,
   chunk_fragment_bound_or_whole_word 1 ("a bbbbb".toList) ['b', 'b', 'b', 'b', 'b']
     (by decide)⟩

/-- Counterexample for C7: `cosineSimilarity` has no guard on the
denominator, so on two zero vectors the JS division is `0/0 = NaN`
(modelled as `none`), not the claimed degenerate score `0`. -/
theorem cosine_zero_norm_counterexample :
    cosineSimilarity [0, 0, 0] [0, 0, 0] = none ∧
    cosineSimilarity [0, 0, 0] [0, 0, 0] ≠ some 0 := by
  have hmag : magnitude [0, 0, 0] = 0 := by
    simp [magnitude]
  refine ⟨?_, ?_⟩ <;> simp [cosineSimilarity, jsDiv, hmag]

/-- C7 (amended): the similarity score is the cosine
`dot(a,b) / (||a|| * ||b||)` computed by an unguarded division — defined
whenever neither norm is zero, and `NaN` (undefined, not `0`) when the
product of norms is zero. -/
theorem cosineSimilarity_unguarded (vecA vecB : List ℝ) :
    (magnitude vecA * magnitude vecB = 0 → cosineSimilarity vecA vecB = none) ∧
    (magnitude vecA * magnitude vecB ≠ 0 →
      cosineSimilarity vecA vecB
        = some (dotProduct vecA vecB / (magnitude vecA * magnitude vecB))) := by
  constructor
  · intro h
    simp [cosineSimilarity, jsDiv, h]
  · intro h
    simp [cosineSimilarity, jsDiv, h]

/-- Witness for C7 (amended) on the orthonormal pair `[1,0]`, `[0,1]`. -/
theorem cosineSimilarity_unguarded_witness :
    magnitude [1, 0] * magnitude [0, 1] ≠ 0 ∧
    cosineSimilarity [1, 0] [0, 1]
      = some (dotProduct [1, 0] [0, 1] / (magnitude [1, 0] * magnitude [0, 1])) := by
  have h1 : magnitude [1, 0] = 1 := by
    simp [magnitude]
  have h2 : magnitude [0, 1] = 1 := by
    simp [magnitude]
  have hne : magnitude [1, 0] * magnitude [0, 1] ≠ 0 := by
    rw [h1, h2]
    norm_num
  exact ⟨hne, (cosineSimilarity_unguarded [1, 0] [0, 1]).2 hne⟩

/-- C8: the multi-chunk embedding fallback returns the component-wise
arithmetic mean of the sub-chunk vectors — for equal-dimension inputs the
result has the common dimension and its `i`-th component is the sum of
the `i`-th components divided by the number of vectors. -/
theorem averageEmbeddings_componentwise_mean (embeddings : List (List ℚ)) (d : Nat)
    (hne : embeddings ≠ []) (hd : ∀ e ∈ embeddings, e.length = d) :
    (averageEmbeddings embeddings).length = d ∧
    ∀ i, i < d →
      (averageEmbeddings embeddings).getD i 0
        = (embeddings.map (fun e => e.getD i 0)).sum / (embeddings.length : ℚ) := by
  have hdims : (embeddings.headD []).length = d := by
    rcases embeddings with _ | ⟨e, t⟩
    · exact absurd rfl hne
    · exact hd e (List.mem_cons_self _ _)
  unfold averageEmbeddings
  rw [hdims]
  constructor
  · rw [List.length_map]
    exact avg_fold_length d embeddings (List.replicate d (0 : ℚ))
      (List.length_replicate _ _)
  · intro i hi
    have hlen := avg_fold_length d embeddings (List.replicate d (0 : ℚ))
      (List.length_replicate _ _)
    have hgd := avg_fold_getD d i hi embeddings (List.replicate d (0 : ℚ))
      (List.length_replicate _ _)
    have hz : (List.replicate d (0 : ℚ)).getD i 0 = 0 := by
      rw [List.getD_eq_getElem?_getD, List.getElem?_replicate_of_lt hi]
      rfl
    rw [getD_map_of_lt _ _ i (by omega), hgd, hz, zero_add]

/-- Witness for C8 on the spec's concrete instance: averaging the three
dimension-4 unit vectors yields `[1/3, 1/3, 1/3, 0]`. -/
theorem averageEmbeddings_componentwise_mean_witness :
    (([[1, 0, 0, 0], [0, 1, 0, 0], [0, 0, 1, 0]] : List (List ℚ)) ≠ []) ∧
    (averageEmbeddings [[1, 0, 0, 0], [0, 1, 0, 0], [0, 0, 1, 0]]).getD 0 0 = 1 / 3 ∧
    (averageEmbeddings [[1, 0, 0, 0], [0, 1, 0, 0], [0, 0, 1, 0]]).getD 1 0 = 1 / 3 ∧
    (averageEmbeddings [[1, 0, 0, 0], [0, 1, 0, 0], [0, 0, 1, 0]]).getD 2 0 = 1 / 3 ∧
    (averageEmbeddings [[1, 0, 0, 0], [0, 1, 0, 0], [0, 0, 1, 0]]).getD 3 0 = 0 := by
  have h := averageEmbeddings_componentwise_mean
    [[1, 0, 0, 0], [0, 1, 0, 0], [0, 0, 1, 0]] 4
    (by simp) (by intro e he; fin_cases he <;> rfl)
  refine ⟨by simp, ?_, ?_, ?_, ?_⟩
  · rw [h.2 0 (by norm_num)]
    norm_num
  · rw [h.2 1 (by norm_num)]
    norm_num
  · rw [h.2 2 (by norm_num)]
    norm_num
  · rw [h.2 3 (by norm_num)]
    norm_num

/-- C9: `formatContext` returns the fixed sentinel for a missing or empty
hit list; otherwise it groups hits by the owning document's date — the
group keys are exactly the distinct dates in first-seen order (so two
documents sharing a date are merged under one heading, never two), and
the groups together hold every hit. -/
theorem formatContext_groups_by_first_seen_date (hits : List SearchHit) :
    formatContext none = noContentSentinel ∧
    formatContext (some []) = noContentSentinel ∧
    (groupByDate hits).map Prod.fst = firstSeenOrder (hits.map (fun h => h.date)) ∧
    ((groupByDate hits).map Prod.fst).Nodup ∧
    ((groupByDate hits).map (fun p => p.2.length)).sum = hits.length := by
  have hkeys : (groupByDate hits).map Prod.fst
      = firstSeenOrder (hits.map (fun h => h.date)) := by
    unfold groupByDate firstSeenOrder
    rw [groupFold_keys hits.enum []]
    have : hits.enum.map (fun p => p.2.date)
        = (hits.enum.map Prod.snd).map (fun h => h.date) := by
      rw [List.map_map]
      rfl
    rw [this, show hits.enum.map Prod.snd = hits from List.enumFrom_map_snd 0 hits]
    rfl
  refine ⟨rfl, rfl, hkeys, ?_, ?_⟩
  · rw [hkeys]
    exact foldl_insert_nodup _ [] List.nodup_nil
  · unfold groupByDate
    rw [groupFold_sizes hits.enum []]
    simp

/-- Counterexample for C10: with budget `maxTokens = 0` the truncation
branch pushes `word.substring(0, 0)`, an empty fragment. -/
theorem chunk_empty_fragment_counterexample :
    chunkText ['a'] 0 = [[]] ∧ ¬ (∀ c ∈ chunkText ['a'] 0, c ≠ []) := by decide

/-- C10 (amended): for every positive budget the chunker emits no empty
fragment, and an all-space (or empty) input yields the empty sequence. -/
theorem chunk_fragments_nonempty (maxTokens : Nat) (text : List Char)
    (hm : 1 ≤ maxTokens) :
    (∀ c ∈ chunkText text maxTokens, c ≠ []) ∧
    ((∀ ch ∈ text, ch = ' ') → chunkText text maxTokens = []) := by
  constructor
  · intro c hc
    unfold chunkText chunkTextWords at hc
    have h := chunk_fold_nonempty maxTokens hm (splitOnSpaceChars text) ([], [])
      (by intro x hx; exact absurd hx (List.not_mem_nil _))
    set r := (splitOnSpaceChars text).foldl (chunkStep maxTokens) ([], []) with hr
    by_cases hcc : r.2 = []
    · rw [if_pos hcc] at hc
      exact h c hc
    · rw [if_neg hcc] at hc
      rcases List.mem_append.1 hc with h2 | h2
      · exact h c h2
      · rw [List.mem_singleton.1 h2]
        exact hcc
  · intro hsp
    unfold chunkText chunkTextWords
    rw [chunk_fold_empty_words maxTokens (splitOnSpaceChars text) []
      (splitOnSpaceChars_all_empty text hsp)]
    rfl

/-- Witness for C10 (amended): at budget `1`, a real fragment is
non-empty and an all-space text chunks to nothing. -/
theorem chunk_fragments_nonempty_witness :
    1 ≤ 1 ∧ (['h', 'i'] : List Char) ≠ [] ∧ chunkText [' ', ' '] 1 = [] :=
  ⟨Nat.le_refl 1,
   (chunk_fragments_nonempty 1 ['h', 'i'] (Nat.le_refl 1)).1 ['h', 'i'] (by decide),
   (chunk_fragments_nonempty 1 [' ', ' '] (Nat.le_refl 1)).2 (by decide)⟩
